import Mathlib

/-!
Verification development for the multi-unit tactical pathfinder
(PathFinder / MultiUnitPathFinder C++ libraries).

The definitions below are a shallow embedding of the C++ sources:

* `PathFinder.cpp` — grid model (`BattleMap`), neighbour generation,
  plain A* (`findPathAStar`);
* `MultiUnitPathFinder.cpp` — temporal occupancy, temporal A*
  (`findPathAStarWithOccupiedCheck`), the scheduling strategies
  (`findPathsSequential`, `findPathsPriorityBased`, `findPathsCooperative`),
  collision detection (`findCollisions`), step table generation
  (`generateStepByStepPositions`), and unit management (`addUnit` …).

C++ `int` is modelled by `Int`.  The `double` cost fields (`gCost`, `hCost`,
`fCost`) only ever hold integer values (costs grow by exactly `1.0` and the
heuristic is a Manhattan distance of `int`s), and `double` represents such
integers exactly far beyond any value reachable here, so they are modelled
by `Int`; the comparator's epsilon test `|fa - fb| < 1e-9` is then exactly
`fa = fb`.

`std::map<int, std::set<Position>>` (the temporal occupancy) is observed by
the program only through membership queries, insertion and clearing, so it
is modelled by its characteristic function `Int → Position → Bool`.
-/

set_option maxHeartbeats 1000000

namespace RTS

/-- 2D position on the battle map (struct `Position`, PathFinder.h). -/
structure Position where
  x : Int
  y : Int
deriving DecidableEq, Repr, Inhabited

/-- Battle map (struct `BattleMap`, PathFinder.h).  `grid[y][x]` holds the
terrain code; `-1` ground, `0` start, `8` target, `3` elevated. -/
structure BattleMap where
  grid : List (List Int)
  width : Int
  height : Int
  startPos : Position
  targetPos : Position
  allStartPositions : List Position
  allTargetPositions : List Position
deriving DecidableEq, Repr, Inhabited

/-- Bounds check (`BattleMap::isValidPosition`). -/
def BattleMap.isValidPosition (m : BattleMap) (x y : Int) : Bool :=
  0 ≤ x && x < m.width && 0 ≤ y && y < m.height

/-- Terrain code at `(x, y)`.  The C++ code only indexes `grid[y][x]` after an
`isValidPosition` check; out-of-range reads (C++ UB) default to `3`
(non-traversable). -/
def BattleMap.tileAt (m : BattleMap) (x y : Int) : Int :=
  (m.grid.getD y.toNat []).getD x.toNat 3

/-- Traversability check (`BattleMap::isReachable`): in bounds and the tile is
one of `-1` (ground), `0` (start), `8` (target). -/
def BattleMap.isReachable (m : BattleMap) (x y : Int) : Bool :=
  if !m.isValidPosition x y then false
  else
    let tile := m.tileAt x y
    tile == -1 || tile == 0 || tile == 8

/-- Map-loaded check (`PathFinder::isMapLoaded`). -/
def BattleMap.isMapLoaded (m : BattleMap) : Bool :=
  !m.allStartPositions.isEmpty && !m.allTargetPositions.isEmpty && !m.grid.isEmpty

/-- Manhattan distance heuristic (`PathFinder::calculateHeuristic`). -/
def calculateHeuristic (p q : Position) : Int :=
  ((p.x - q.x).natAbs : Int) + ((p.y - q.y).natAbs : Int)

/-- Default move order "rdlu" (`PathFinder::setDefaultMoveOrder`). -/
def defaultMoveOrder : List (Int × Int) :=
  [(1, 0), (0, 1), (-1, 0), (0, -1)]

/-- Neighbour generation (`PathFinder::getNeighbors`): for each configured
direction, keep the offset cell when it is reachable. -/
def getNeighbors (m : BattleMap) (dirs : List (Int × Int)) (pos : Position) :
    List Position :=
  dirs.filterMap fun d =>
    let nx := pos.x + d.1
    let ny := pos.y + d.2
    if m.isReachable nx ny then some ⟨nx, ny⟩ else none

/-- Temporal occupancy (`occupiedPositionsAtTime`,
`std::map<int, std::set<Position, PositionComparator>>`), modelled by its
characteristic function: `occ t p = true` iff `p` is reserved at step `t`. -/
abbrev Occ : Type := Int → Position → Bool

/-- Empty occupancy (`clearOccupiedPositions`). -/
def emptyOcc : Occ := fun _ _ => false

/-- Insertion of a single reservation (`occupiedPositionsAtTime[t].insert(p)`). -/
def Occ.insertAt (occ : Occ) (t : Int) (p : Position) : Occ :=
  fun t1 q => (t1 == t && q == p) || occ t1 q

/-- Path reservation (`MultiUnitPathFinder::updateOccupiedPositions`):
`path[i]` is reserved at `startTime + i`, but only when the cell is within map
bounds (invalid cells are skipped with a warning). -/
def updateOccupiedPositions (m : BattleMap) (occ : Occ) (path : List Position)
    (startTime : Int) : Occ :=
  match path with
  | [] => occ
  | p :: rest =>
      let occ1 := if m.isValidPosition p.x p.y then occ.insertAt startTime p else occ
      updateOccupiedPositions m occ1 rest (startTime + 1)

/-- Wait feasibility (`MultiUnitPathFinder::canWaitAtPosition`): the cell is
valid, reachable, and not reserved at `timeStep`. -/
def canWaitAtPosition (m : BattleMap) (occ : Occ) (pos : Position)
    (timeStep : Int) : Bool :=
  if !m.isValidPosition pos.x pos.y || !m.isReachable pos.x pos.y then false
  else !(occ timeStep pos)

/-- Occupancy-aware neighbour generation
(`PathFinder::getNeighborsWithOccupiedCheck`): valid, reachable, and free of
reservations at `currentTime + 1`. -/
def getNeighborsWithOccupiedCheck (m : BattleMap) (dirs : List (Int × Int))
    (pos : Position) (currentTime : Int) (occ : Occ) : List Position :=
  dirs.filterMap fun d =>
    let nx := pos.x + d.1
    let ny := pos.y + d.2
    let np : Position := ⟨nx, ny⟩
    if !m.isValidPosition nx ny then none
    else if !m.isReachable nx ny then none
    else if occ (currentTime + 1) np then none
    else some np

/-- A unit with start/target and pathfinding outcome (struct `Unit`,
MultiUnitPathFinder.h). -/
structure Unit where
  id : Int
  startPos : Position
  targetPos : Position
  path : List Position := []
  pathFound : Bool := false
deriving DecidableEq, Repr, Inhabited

/-- Outcome of a multi-unit planning run (struct `PathfindingResult`).
`totalSteps` is a C++ `int` that only ever receives sizes, so it is `Nat`. -/
structure PathfindingResult where
  units : List Unit := []
  allPathsFound : Bool := false
  totalSteps : Nat := 0
  stepByStepPositions : List (List Position) := []
deriving DecidableEq, Repr, Inhabited

/-- Collision scan (`MultiUnitPathFinder::findCollisions`): for every time
step and every ordered pair `i < j` of agents sharing a cell at that step, an
entry `(timeStep, i)` is emitted.  Indices are `Nat` (the C++ code casts
non-negative sizes to `int`). -/
def findCollisions (stepByStepPositions : List (List Position)) :
    List (Nat × Nat) :=
  (List.range stepByStepPositions.length).flatMap fun t =>
    let row := stepByStepPositions.getD t []
    (List.range row.length).flatMap fun i =>
      ((List.range row.length).filter fun j => i < j).filterMap fun j =>
        if row.getD i default == row.getD j default then some (t, i) else none

/-- Step table generation (`MultiUnitPathFinder::generateStepByStepPositions`):
collect paths of found units, extend each non-empty one to the maximum length
by repeating its last cell, then transpose. -/
def generateStepByStepPositions (unitsWithPaths : List Unit) :
    List (List Position) :=
  let allPaths := (unitsWithPaths.filter fun u => u.pathFound).map fun u => u.path
  if allPaths.isEmpty then []
  else
    let maxLength := allPaths.foldl (fun acc p => max acc p.length) 0
    let extended := allPaths.map fun p =>
      if p.isEmpty then p
      else p ++ List.replicate (maxLength - p.length) (p.getLastD default)
    if extended.isEmpty || (extended.getD 0 []).isEmpty then []
    else
      (List.range (extended.getD 0 []).length).map fun t =>
        extended.filterMap fun p =>
          if t < p.length then some (p.getD t default) else none

/-- Update of the first unit whose id matches (`addUnit`, duplicate-id branch):
overwrite start/target, clear the path, reset the found flag. -/
def updateFirstUnit : List Unit → Int → Position → Position → List Unit
  | [], _, _, _ => []
  | u :: rest, unitId, s, t =>
      if u.id == unitId then
        { u with startPos := s, targetPos := t, path := [], pathFound := false } :: rest
      else u :: updateFirstUnit rest unitId s t

/-- Unit registration (`MultiUnitPathFinder::addUnit`): update in place when
the id already exists, otherwise append a fresh unit and give it default
priority `0`. -/
def addUnit (units : List Unit) (prios : Int → Int) (unitId : Int)
    (startPos targetPos : Position) : List Unit × (Int → Int) :=
  if units.any fun u => u.id == unitId then
    (updateFirstUnit units unitId startPos targetPos, prios)
  else
    (units ++ [{ id := unitId, startPos := startPos, targetPos := targetPos,
                 path := [], pathFound := false }],
     fun i => if i == unitId then 0 else prios i)

/-- Unit removal (`MultiUnitPathFinder::removeUnit`): erase every unit with
the id and drop its priority entry (absent entries read as `0`). -/
def removeUnit (units : List Unit) (prios : Int → Int) (unitId : Int) :
    List Unit × (Int → Int) :=
  (units.filter fun u => !(u.id == unitId),
   fun i => if i == unitId then 0 else prios i)

/-- Unit reset (`MultiUnitPathFinder::clearUnits`). -/
def clearUnits : List Unit × (Int → Int) × Occ :=
  ([], fun _ => 0, emptyOcc)

/-!
Binary heap model.  `std::priority_queue` is a binary max-heap (w.r.t. the
given comparator) over a `std::vector`, maintained by libstdc++'s
`__push_heap` / `__pop_heap` / `__adjust_heap`.  Those routines are modelled
index-for-index below (with a `base` offset so the same code serves the
heapsort fallback of `std::sort`).  All loops are given ample fuel; the fuel
bounds strictly dominate the number of iterations the C++ loops can perform
(sift-up shrinks the hole index, sift-down grows it below `len`), so the
models agree with the C++ routines on every execution.
-/

/-- Sift-up (libstdc++ `__push_heap`): while the hole is below `top` and the
parent compares less than `value`, move the parent down; finally place
`value`.  `fuel` must exceed the initial hole index (each step at least
halves it). -/
def pushHeapLoop {α : Type} [Inhabited α] (lt : α → α → Bool) (base : Nat) :
    Nat → List α → Nat → Nat → α → List α
  | 0, arr, hole, _, v => arr.set (base + hole) v
  | fuel + 1, arr, hole, top, v =>
      if top < hole && lt (arr.getD (base + (hole - 1) / 2) default) v then
        pushHeapLoop lt base fuel
          (arr.set (base + hole) (arr.getD (base + (hole - 1) / 2) default))
          ((hole - 1) / 2) top v
      else arr.set (base + hole) v

/-- Downward phase of libstdc++ `__adjust_heap`: walk the hole down towards
the larger child while a second child exists.  Returns the updated array, the
final hole index and the final `secondChild` value. -/
def adjustHeapDown {α : Type} [Inhabited α] (lt : α → α → Bool) (base : Nat) :
    Nat → List α → Nat → Nat → Nat → List α × Nat × Nat
  | 0, arr, hole, sc, _ => (arr, hole, sc)
  | fuel + 1, arr, hole, sc, len =>
      if sc < (len - 1) / 2 then
        let sc1 := 2 * (sc + 1)
        let sc2 :=
          if lt (arr.getD (base + sc1) default) (arr.getD (base + sc1 - 1) default)
          then sc1 - 1 else sc1
        adjustHeapDown lt base fuel
          (arr.set (base + hole) (arr.getD (base + sc2) default)) sc2 sc2 len
      else (arr, hole, sc)

/-- Hole adjustment (libstdc++ `__adjust_heap`): sift the hole down, handle
the final single-child level of an even-length heap, then sift `value` back
up towards the original hole index.  The `2 ≤ len` guard reproduces the C++
signed comparison `secondChild == (len - 2) / 2` for `len < 2` (where the C++
right-hand side is negative and the branch is never taken). -/
def adjustHeap {α : Type} [Inhabited α] (lt : α → α → Bool) (base : Nat)
    (arr : List α) (hole len : Nat) (value : α) : List α :=
  let r := adjustHeapDown lt base len arr hole hole len
  let arr1 := r.1
  let hole1 := r.2.1
  let sc := r.2.2
  let pr : List α × Nat :=
    if 2 ≤ len && len % 2 == 0 && sc == (len - 2) / 2 then
      let sc1 := 2 * (sc + 1)
      (arr1.set (base + hole1) (arr1.getD (base + sc1 - 1) default), sc1 - 1)
    else (arr1, hole1)
  pushHeapLoop lt base (pr.2 + 1) pr.1 pr.2 hole value

/-- Queue insertion (`std::priority_queue::push`): append, then sift up from
the last index. -/
def pqPush {α : Type} [Inhabited α] (lt : α → α → Bool) (arr : List α)
    (x : α) : List α :=
  let arr1 := arr ++ [x]
  pushHeapLoop lt 0 arr1.length arr1 (arr1.length - 1) 0 x

/-- Queue extraction (`top()` followed by `pop()`, i.e. `std::pop_heap` plus
`pop_back`): return the root, move the last element into the root hole via
`__adjust_heap` over the first `n - 1` slots, and drop the last slot. -/
def pqPop {α : Type} [Inhabited α] (lt : α → α → Bool) (arr : List α) :
    α × List α :=
  let top := arr.getD 0 default
  if arr.length ≤ 1 then (top, [])
  else
    let n := arr.length
    let value := arr.getD (n - 1) default
    let arr1 := arr.set (n - 1) (arr.getD 0 default)
    let arr2 := adjustHeap lt 0 arr1 0 (n - 1) value
    (top, arr2.take (n - 1))

/-!
Plain (non-temporal) A* — `PathFinder::findPathAStar`.  Nodes are immutable
in this variant (a position already in the open set is never re-pushed or
updated), so parent links are modelled by values.
-/

/-- Search node of the plain A* (struct `PathFinder::Node`).  `fCost` is
always `gCost + hCost` in the source, so it is derived. -/
inductive PNode : Type where
  | mk (pos : Position) (gCost hCost : Int) (parent : Option PNode)

instance : Inhabited PNode := ⟨.mk default 0 0 none⟩

def PNode.pos : PNode → Position
  | .mk p _ _ _ => p

def PNode.gCost : PNode → Int
  | .mk _ g _ _ => g

def PNode.hCost : PNode → Int
  | .mk _ _ h _ => h

def PNode.fCost (n : PNode) : Int := n.gCost + n.hCost

def PNode.parent : PNode → Option PNode
  | .mk _ _ _ par => par

/-- Priority comparator of the plain A* (`PathFinder::NodeComparator`):
`a` is ordered after `b` when its f-cost is larger (h-cost breaks ties). -/
def plainNodeLt (a b : PNode) : Bool :=
  if a.fCost == b.fCost then decide (a.hCost > b.hCost)
  else decide (a.fCost > b.fCost)

/-- Path reconstruction (`PathFinder::reconstructPath`): follow parent links
to the root, collecting positions, then reverse. -/
def reconstructPath : PNode → List Position
  | .mk p _ _ none => [p]
  | .mk p _ _ (some par) => reconstructPath par ++ [p]

/-- Main loop of `PathFinder::findPathAStar(start, target)`.  The C++ loop
runs `while (!openSet.empty())`; each grid position enters the open set at
most once ever (a popped position goes into the closed set before any push,
and pushes are guarded by both sets), so the loop performs at most
`width * height + 1` iterations; the fuel strictly dominates that. -/
def plainAStarLoop (m : BattleMap) (dirs : List (Int × Int))
    (target : Position) :
    Nat → List PNode → List Position → List Position → List Position
  | 0, _, _, _ => []
  | fuel + 1, heap, closed, openPos =>
      if heap.isEmpty then []
      else
        let pr := pqPop plainNodeLt heap
        let cur := pr.1
        let openPos1 := openPos.erase cur.pos
        if cur.pos == target then reconstructPath cur
        else
          let closed1 := cur.pos :: closed
          let st := (getNeighbors m dirs cur.pos).foldl
            (fun (acc : List PNode × List Position) nb =>
              if closed1.contains nb then acc
              else if acc.2.contains nb then acc
              else
                (pqPush plainNodeLt acc.1
                  (.mk nb (cur.gCost + 1) (calculateHeuristic nb target) (some cur)),
                 nb :: acc.2))
            (pr.2, openPos1)
          plainAStarLoop m dirs target fuel st.1 closed1 st.2

/-- Plain A* (`PathFinder::findPathAStar(const Position&, const Position&)`). -/
def findPathAStarPlain (m : BattleMap) (dirs : List (Int × Int))
    (start target : Position) : List Position :=
  if !m.isMapLoaded then []
  else
    let startNode : PNode := .mk start 0 (calculateHeuristic start target) none
    plainAStarLoop m dirs target (m.width.toNat * m.height.toNat + 2)
      [startNode] [] [start]

/-!
Temporal A* — `MultiUnitPathFinder::findPathAStarWithOccupiedCheck`.  Here
nodes in the open set are mutated in place (g-cost / f-cost / parent) through
`shared_ptr`s while they sit inside the priority queue, so nodes live in a
store indexed by allocation order and the heap holds indices; the comparator
reads the store current at each heap operation, exactly as the C++ heap
routines re-read the pointed-to nodes.

The C++ keys the open/closed sets by the string `"x,y,t"`
(`positionTimeKey`); that encoding is injective on integer triples, so keys
are modelled by the triple itself.
-/

/-- Search node of the temporal A* (struct `MultiUnitPathFinder::PathNode`).
`fCost` is maintained as `gCost + hCost` by every write in the source, so it
is derived. -/
structure TNode where
  pos : Position
  time : Int
  gCost : Int
  hCost : Int
  parent : Option Nat
deriving DecidableEq, Repr, Inhabited

def TNode.fCost (n : TNode) : Int := n.gCost + n.hCost

/-- Position-time key (`MultiUnitPathFinder::positionTimeKey`). -/
def ptKey (p : Position) (t : Int) : Int × Int × Int := (p.x, p.y, t)

/-- Priority comparator (`MultiUnitPathFinder::PathNodeComparator`), reading
the node store.  The C++ compares `double`s with an epsilon
(`|fa - fb| < 1e-9`); the costs are exact integers, so the test is exactly
equality. -/
def tNodeLt (store : List TNode) (a b : Nat) : Bool :=
  let na := store.getD a default
  let nb := store.getD b default
  if na.fCost == nb.fCost then decide (na.hCost > nb.hCost)
  else decide (na.fCost > nb.fCost)

/-- State of the temporal A* search: node store, heap of node indices,
open-set key map (`openSetNodes`) and closed key set (`closedSet`). -/
structure TSearchState where
  store : List TNode
  heap : List Nat
  openNodes : List ((Int × Int × Int) × Nat)
  closed : List (Int × Int × Int)

/-- Path reconstruction (`MultiUnitPathFinder::reconstructPathFromNode`):
follow parent indices, collecting positions root-first.  Every node's parent
sits at time one less than the node itself (nodes are created with
`time = parent.time + 1` and re-parenting preserves the key, hence the time),
so a chain from a node at time `t` has exactly `t + 1` nodes and fuel
`t + 1` reproduces the full C++ traversal. -/
def reconstructPathFromNode (store : List TNode) :
    Nat → Option Nat → List Position
  | _, none => []
  | 0, some _ => []
  | fuel + 1, some i =>
      let n := store.getD i default
      reconstructPathFromNode store fuel n.parent ++ [n.pos]

/-- Successor cells considered when expanding a state `(pos, time)`:
the occupancy-checked orthogonal moves, then the wait-in-place option
(guarded by `canWaitAtPosition(pos, time + 1)`), in source order. -/
def temporalSuccessors (m : BattleMap) (dirs : List (Int × Int)) (occ : Occ)
    (pos : Position) (time : Int) : List Position :=
  getNeighborsWithOccupiedCheck m dirs pos time occ ++
    (if canWaitAtPosition m occ pos (time + 1) then [pos] else [])

/-- Candidate node built for a successor cell: one time step later, one unit
of g-cost more, parented to the expanded node. -/
def mkSuccNode (cur : TNode) (target : Position) (curId : Nat)
    (np : Position) : TNode :=
  ⟨np, cur.time + 1, cur.gCost + 1, calculateHeuristic np target, some curId⟩

/-- Processing of one successor cell (both the neighbour loop and the wait
block of the C++ perform exactly these steps): skip when the `(cell, t+1)`
key is closed; otherwise allocate and push a node if the key is not open, or
improve the existing node in place when the new g-cost is smaller (the heap
is not re-ordered — the C++ mutates the node inside the queue). -/
def processSuccessor (target : Position) (curId : Nat) (st : TSearchState)
    (np : Position) : TSearchState :=
  let cur := st.store.getD curId default
  let nKey := ptKey np (cur.time + 1)
  if st.closed.contains nKey then st
  else
    let tentativeG := cur.gCost + 1
    match (st.openNodes.find? fun e => e.1 == nKey).map (fun e => e.2) with
    | none =>
        let newId := st.store.length
        let nd := mkSuccNode cur target curId np
        { st with
          store := st.store ++ [nd]
          heap := pqPush (tNodeLt (st.store ++ [nd])) st.heap newId
          openNodes := (nKey, newId) :: st.openNodes }
    | some nid =>
        if tentativeG < (st.store.getD nid default).gCost then
          let old := st.store.getD nid default
          { st with
            store := st.store.set nid { old with gCost := tentativeG, parent := some curId } }
        else st

/-- Main loop of the temporal A*.  The C++ loop condition is
`!openSet.empty() && iterations < maxIterations`; the fuel argument plays the
role of `maxIterations - iterations`. -/
def temporalAStarLoop (m : BattleMap) (dirs : List (Int × Int)) (occ : Occ)
    (target : Position) : Nat → TSearchState → List Position
  | 0, _ => []
  | fuel + 1, st =>
      if st.heap.isEmpty then []
      else
        let pr := pqPop (tNodeLt st.store) st.heap
        let curId := pr.1
        let cur := st.store.getD curId default
        let curKey := ptKey cur.pos cur.time
        let open1 := st.openNodes.filter fun e => !(e.1 == curKey)
        if cur.pos == target then
          reconstructPathFromNode st.store (cur.time.toNat + 1) (some curId)
        else
          let st1 : TSearchState :=
            { st with heap := pr.2, openNodes := open1, closed := curKey :: st.closed }
          let st2 := (temporalSuccessors m dirs occ cur.pos cur.time).foldl
            (processSuccessor target curId) st1
          temporalAStarLoop m dirs occ target fuel st2

/-- Temporal A* (`MultiUnitPathFinder::findPathAStarWithOccupiedCheck`):
validity and reachability pre-checks, then the capped search with
`maxIterations = width * height * 100`. -/
def findPathAStarWithOccupiedCheck (m : BattleMap) (dirs : List (Int × Int))
    (occ : Occ) (start target : Position) : List Position :=
  if !m.isMapLoaded then []
  else if !(m.isValidPosition start.x start.y) ||
          !(m.isValidPosition target.x target.y) then []
  else if !(m.isReachable start.x start.y) ||
          !(m.isReachable target.x target.y) then []
  else
    let startNode : TNode := ⟨start, 0, 0, calculateHeuristic start target, none⟩
    let st0 : TSearchState := ⟨[startNode], [0], [(ptKey start 0, 0)], []⟩
    temporalAStarLoop m dirs occ target (m.width * m.height * 100).toNat st0

/-!
Model of `std::sort` as implemented by libstdc++ (the toolchain of this
project: g++, per the Makefile): introsort — a quicksort loop with
median-of-three pivoting, depth limit `2 * floor(log2 n)`, heapsort fallback,
16-element leaf threshold — followed by a final insertion-sort pass.
`std::sort` is *not* stable; the C++ standard leaves the order of equivalent
elements unspecified, and this implementation reorders them.

The final pass (`__final_insertion_sort`) inserts each element, scanning
right-to-left, past exactly the run of elements that compare greater than it
(the guarded variant rotates to the front in the same situation the bounded
scan reaches the front, and the unguarded variant never reaches the front on
the partitioned inputs the real algorithm feeds it), so it is modelled as a
left-to-right bounded linear-insertion pass. -/

/-- Swap of two list entries (`std::iter_swap`). -/
def lswap {α : Type} [Inhabited α] (l : List α) (i j : Nat) : List α :=
  let a := l.getD i default
  let b := l.getD j default
  (l.set i b).set j a

/-- Median-of-three pivot selection (libstdc++ `__move_median_to_first`):
swap the median of entries `a`, `b`, `c` into position `f`. -/
def moveMedianToFirst {α : Type} [Inhabited α] (lt : α → α → Bool)
    (l : List α) (f a b c : Nat) : List α :=
  let ga := l.getD a default
  let gb := l.getD b default
  let gc := l.getD c default
  if lt ga gb then
    if lt gb gc then lswap l f b
    else if lt ga gc then lswap l f c
    else lswap l f a
  else if lt ga gc then lswap l f a
  else if lt gb gc then lswap l f c
  else lswap l f b

/-- Forward scan of `__unguarded_partition`: advance `i` while `l[i]`
compares less than the pivot entry.  The fuel bound only guards against the
out-of-range walk that would be C++ UB. -/
def fwdScan {α : Type} [Inhabited α] (lt : α → α → Bool) (l : List α)
    (pivotIdx : Nat) : Nat → Nat → Nat
  | 0, i => i
  | fuel + 1, i =>
      if lt (l.getD i default) (l.getD pivotIdx default) then
        fwdScan lt l pivotIdx fuel (i + 1)
      else i

/-- Backward scan of `__unguarded_partition`: retreat `i` while the pivot
entry compares less than `l[i]`. -/
def bwdScan {α : Type} [Inhabited α] (lt : α → α → Bool) (l : List α)
    (pivotIdx : Nat) : Nat → Nat → Nat
  | 0, i => i
  | fuel + 1, i =>
      if lt (l.getD pivotIdx default) (l.getD i default) then
        bwdScan lt l pivotIdx fuel (i - 1)
      else i

/-- Partition loop (libstdc++ `__unguarded_partition` with the pivot at index
`pivotIdx`): converge the two scans, swapping out-of-place pairs, and return
the split point. -/
def ugPartitionLoop {α : Type} [Inhabited α] (lt : α → α → Bool) :
    Nat → List α → Nat → Nat → Nat → List α × Nat
  | 0, l, first, _, _ => (l, first)
  | fuel + 1, l, first, last, pivotIdx =>
      let first1 := fwdScan lt l pivotIdx (l.length + 1) first
      let last1 := bwdScan lt l pivotIdx (l.length + 1) (last - 1)
      if first1 < last1 then
        ugPartitionLoop lt fuel (lswap l first1 last1) (first1 + 1) last1 pivotIdx
      else (l, first1)

/-- Pivoted partition (libstdc++ `__unguarded_partition_pivot`): move the
median of `first + 1`, middle, `last - 1` to `first`, then partition
`[first + 1, last)` against it. -/
def ugPartitionPivot {α : Type} [Inhabited α] (lt : α → α → Bool)
    (l : List α) (first last : Nat) : List α × Nat :=
  let mid := first + (last - first) / 2
  let l1 := moveMedianToFirst lt l first (first + 1) mid (last - 1)
  ugPartitionLoop lt (l1.length + 1) l1 (first + 1) last first

/-- Heapify loop of libstdc++ `__make_heap`: adjust parents downwards from
`(len - 2) / 2` to `0`. -/
def makeHeapLoop {α : Type} [Inhabited α] (lt : α → α → Bool)
    (base len : Nat) : Nat → List α → List α
  | 0, l => adjustHeap lt base l 0 len (l.getD base default)
  | p + 1, l =>
      makeHeapLoop lt base len p
        (adjustHeap lt base l (p + 1) len (l.getD (base + p + 1) default))

/-- Heap construction over `[first, last)` (libstdc++ `__make_heap`). -/
def makeHeapRange {α : Type} [Inhabited α] (lt : α → α → Bool) (l : List α)
    (first last : Nat) : List α :=
  if last - first < 2 then l
  else makeHeapLoop lt first (last - first) ((last - first - 2) / 2) l

/-- Heap teardown loop (libstdc++ `__sort_heap`): repeatedly pop the root to
the shrinking tail.  The argument is the current `last - first`. -/
def sortHeapLoop {α : Type} [Inhabited α] (lt : α → α → Bool) (base : Nat) :
    Nat → List α → List α
  | 0, l => l
  | 1, l => l
  | n + 2, l =>
      let lastIdx := base + n + 1
      let value := l.getD lastIdx default
      let l1 := l.set lastIdx (l.getD base default)
      let l2 := adjustHeap lt base l1 0 (n + 1) value
      sortHeapLoop lt base (n + 1) l2

/-- Full heapsort of `[first, last)` (libstdc++ `__partial_sort` with the
middle at `last`, i.e. `__heap_select` whose selection loop is empty followed
by `__sort_heap`). -/
def partialSortFull {α : Type} [Inhabited α] (lt : α → α → Bool) (l : List α)
    (first last : Nat) : List α :=
  sortHeapLoop lt first (last - first) (makeHeapRange lt l first last)

/-- Quicksort phase of libstdc++ `__introsort_loop`: while the range is
longer than 16, partition and recurse into the right part, continuing the
loop on the left part; at depth 0 fall back to heapsort.  The C++ decrements
the depth limit once per loop iteration, which the structural recursion on
the first argument mirrors. -/
def introsortLoop {α : Type} [Inhabited α] (lt : α → α → Bool) :
    Nat → List α → Nat → Nat → List α
  | 0, l, first, last =>
      if last - first > 16 then partialSortFull lt l first last else l
  | d + 1, l, first, last =>
      if last - first > 16 then
        let pc := ugPartitionPivot lt l first last
        let l2 := introsortLoop lt d pc.1 pc.2 last
        introsortLoop lt d l2 first pc.2
      else l

/-- Bounded linear insertion of `x` into the reversed already-sorted prefix
`racc` (the element moves past exactly the run of entries that compare
greater than it, as in libstdc++ `__unguarded_linear_insert` /
`__insertion_sort`). -/
def linInsertBack {α : Type} (lt : α → α → Bool) : List α → α → List α
  | [], x => [x]
  | a :: rest, x => if lt x a then a :: linInsertBack lt rest x else x :: a :: rest

/-- Final pass of libstdc++ `__sort` (`__final_insertion_sort`): a
left-to-right insertion pass over the whole range, kept reversed while it is
built. -/
def finalInsertionSort {α : Type} (lt : α → α → Bool) (l : List α) : List α :=
  (l.foldl (linInsertBack lt) []).reverse

/-- Floor of the base-2 logarithm (libstdc++ `std::__lg`), with the halving
recursion bounded by the argument itself so the kernel can evaluate it. -/
def lgAux : Nat → Nat → Nat
  | 0, _ => 0
  | fuel + 1, n => if 2 ≤ n then lgAux fuel (n / 2) + 1 else 0

/-- Floor of the base-2 logarithm (libstdc++ `std::__lg`). -/
def lgFloor (n : Nat) : Nat := lgAux n n

/-- Model of `std::sort(first, last, comp)` as implemented by libstdc++
(`std::__sort`): introsort loop with depth limit `2 * floor(log2 n)`, then
the final insertion pass. -/
def stdSortList {α : Type} [Inhabited α] (lt : α → α → Bool) (l : List α) :
    List α :=
  if l.isEmpty then l
  else finalInsertionSort lt (introsortLoop lt (2 * lgFloor l.length) l 0 l.length)

/-- Comparator used by `findPathsPriorityBased`'s `std::sort` call: strictly
greater priority first (`getUnitPriority(a.id) > getUnitPriority(b.id)`). -/
def unitPriorityGt (prios : Int → Int) (a b : Unit) : Bool :=
  decide (prios a.id > prios b.id)

/-- The sorted unit list produced by `findPathsPriorityBased`'s
`std::sort(result.units.begin(), result.units.end(), byPriorityDesc)`. -/
def stdSortUnits (prios : Int → Int) (units : List Unit) : List Unit :=
  stdSortList (unitPriorityGt prios) units

/-- Modelled from the spec: the *stable* descending-priority sort that the
specification claims (`"sorted by descending priority (ties broken by stable
original order)"`) — a textbook stable insertion sort.  The source instead
calls `std::sort`, which gives no such stability guarantee; this definition
exists only to compare the claimed behaviour with the implemented one. -/
def specInsertDesc (prios : Int → Int) (u : Unit) : List Unit → List Unit
  | [] => [u]
  | v :: vs =>
      if prios v.id > prios u.id then v :: specInsertDesc prios u vs
      else u :: v :: vs

/-- Modelled from the spec: stable sort by descending priority (see
`specInsertDesc`). -/
def specStableSortByPriorityDesc (prios : Int → Int) : List Unit → List Unit
  | [] => []
  | u :: rest => specInsertDesc prios u (specStableSortByPriorityDesc prios rest)

/-!
The scheduling strategies.  The pathfinder object's mutable members that the
strategies read or write are carried as an explicit state.
-/

/-- Mutable state of a `MultiUnitPathFinder` as far as the strategies are
concerned: the loaded map, the configured move directions, the registered
units, the priority map and the temporal occupancy. -/
structure MUState where
  battleMap : BattleMap
  moveDirections : List (Int × Int)
  units : List Unit
  unitPriorities : Int → Int
  occupied : Occ

/-- Per-unit step of the sequential loop (`findPathsSequential` body):
validity and reachability checks, the start-equals-target shortcut, then the
temporal A*; found paths are committed to the occupancy.  On failure the C++
additionally runs a plain A* purely for diagnostics (console output only),
which has no observable effect and is omitted. -/
def sequentialProcessUnit (m : BattleMap) (dirs : List (Int × Int))
    (occ : Occ) (u : Unit) : Unit × Occ :=
  if !(m.isValidPosition u.startPos.x u.startPos.y) ||
     !(m.isValidPosition u.targetPos.x u.targetPos.y) then
    ({ u with pathFound := false }, occ)
  else if !m.isReachable u.startPos.x u.startPos.y then
    ({ u with pathFound := false }, occ)
  else if !m.isReachable u.targetPos.x u.targetPos.y then
    ({ u with pathFound := false }, occ)
  else if u.startPos == u.targetPos then
    ({ u with path := [u.startPos], pathFound := true },
     updateOccupiedPositions m occ [u.startPos] 0)
  else
    let path := findPathAStarWithOccupiedCheck m dirs occ u.startPos u.targetPos
    if !path.isEmpty then
      ({ u with path := path, pathFound := true },
       updateOccupiedPositions m occ path 0)
    else ({ u with pathFound := false }, occ)

/-- Unit loop of `findPathsSequential`: process the copied units in order,
threading the occupancy (cleared on entry by `clearOccupiedPositions`). -/
def findPathsSequentialCore (m : BattleMap) (dirs : List (Int × Int))
    (units : List Unit) : List Unit × Occ :=
  units.foldl
    (fun (acc : List Unit × Occ) u =>
      let r := sequentialProcessUnit m dirs acc.2 u
      (acc.1 ++ [r.1], r.2))
    ([], emptyOcc)

/-- Sequential strategy (`MultiUnitPathFinder::findPathsSequential`):
the result carries the processed copies and the conjunction of the found
flags; the pathfinder's occupancy member ends up holding the committed
reservations. -/
def findPathsSequentialR (s : MUState) : PathfindingResult × MUState :=
  let pr := findPathsSequentialCore s.battleMap s.moveDirections s.units
  ({ units := pr.1, allPathsFound := pr.1.all fun u => u.pathFound,
     totalSteps := 0, stepByStepPositions := [] },
   { s with occupied := pr.2 })

/-- Priority-based strategy (`MultiUnitPathFinder::findPathsPriorityBased`):
sort a copy of the units with `std::sort` (descending priority), temporarily
swap it in as the unit list, run the sequential strategy, then restore the
original unit list. -/
def findPathsPriorityBased (s : MUState) : PathfindingResult × MUState :=
  let sorted := stdSortUnits s.unitPriorities s.units
  let r := findPathsSequentialR { s with units := sorted }
  (r.1, { r.2 with units := s.units })

/-- Guarded grid write `grid[y][x] = v` (the C++ indexes unchecked, which is
UB out of range; the model leaves the grid unchanged there). -/
def setCell (g : List (List Int)) (y x : Int) (v : Int) : List (List Int) :=
  if y < 0 || x < 0 then g
  else g.set y.toNat ((g.getD y.toNat []).set x.toNat v)

/-- Per-unit temporary map of the cooperative strategy: clear all start (0)
and target (8) markers to ground, then mark the unit's own start and target
and set them as the default search endpoints. -/
def coopTempMap (m : BattleMap) (s t : Position) : BattleMap :=
  let g1 := m.grid.map fun row =>
    row.map fun tile => if tile == 0 || tile == 8 then -1 else tile
  let g2 := setCell g1 s.y s.x 0
  let g3 := setCell g2 t.y t.x 8
  { m with grid := g3, startPos := s, targetPos := t }

/-- Per-unit body of the cooperative pass: plan the unit with the *plain* A*
(`findPathAStar()`) on its temporary map — the temporal occupancy is not
consulted by this search — and record a found path into the occupancy; a
failure clears the pass-local `allFound` flag. -/
def coopStep (m : BattleMap) (dirs : List (Int × Int))
    (acc : List Unit × Occ × Bool) (u : Unit) : List Unit × Occ × Bool :=
  let tm := coopTempMap m u.startPos u.targetPos
  let path := findPathAStarPlain tm dirs tm.startPos tm.targetPos
  if !path.isEmpty then
    (acc.1 ++ [{ u with path := path, pathFound := true }],
     updateOccupiedPositions m acc.2.1 path 0, acc.2.2)
  else
    (acc.1 ++ [{ u with pathFound := false }], acc.2.1, false)

/-- One cooperative pass (the per-attempt unit loop of
`findPathsCooperative`).  Returns the processed units, the occupancy, and
the pass-local `allFound` flag. -/
def coopPass (m : BattleMap) (dirs : List (Int × Int)) (units : List Unit)
    (occ0 : Occ) : List Unit × Occ × Bool :=
  units.foldl (coopStep m dirs) ([], occ0, true)

/-- Attempt loop of `findPathsCooperative`: up to `maxAttempts` passes; every
attempt after the first shuffles the current unit list (`std::shuffle` with a
freshly seeded engine, modelled by the uninterpreted `oracle`) and clears the
occupancy; stop on the first fully successful pass. -/
def coopLoop (m : BattleMap) (dirs : List (Int × Int))
    (oracle : Nat → List Unit → List Unit) :
    Nat → Nat → List Unit → Occ → List Unit × Occ × Bool
  | 0, _, units, occ => (units, occ, false)
  | n + 1, attempt, units, occ =>
      let units1 := if attempt == 0 then units else oracle attempt units
      let occ1 := if attempt == 0 then occ else emptyOcc
      let r := coopPass m dirs units1 occ1
      if r.2.2 then (r.1, r.2.1, true)
      else coopLoop m dirs oracle n (attempt + 1) r.1 r.2.1

/-- Cooperative strategy (`MultiUnitPathFinder::findPathsCooperative`):
`maxAttempts = 3`; `allPathsFound` is set only when some pass fully
succeeds. -/
def findPathsCooperative (s : MUState)
    (oracle : Nat → List Unit → List Unit) : PathfindingResult × MUState :=
  let r := coopLoop s.battleMap s.moveDirections oracle 3 0 s.units emptyOcc
  ({ units := r.1, allPathsFound := r.2.2, totalSteps := 0,
     stepByStepPositions := [] },
   { s with occupied := r.2.1 })

/-- Result finalisation in `findPathsForAllUnits`: when at least one unit
found a path, fill in the step table and set `totalSteps` to its length. -/
def finalizeResult (r : PathfindingResult) : PathfindingResult :=
  if r.units.any fun u => u.pathFound then
    let sbs := generateStepByStepPositions r.units
    { r with stepByStepPositions := sbs, totalSteps := sbs.length }
  else r

/-- Paths of the units whose found flag is set, in unit order (the `allPaths`
collection loop of `generateStepByStepPositions`). -/
def foundPaths (units : List Unit) : List (List Position) :=
  (units.filter fun u => u.pathFound).map fun u => u.path

/-- Maximum length over a collection of paths (the `maxLength` loop of
`generateStepByStepPositions`). -/
def maxPathLength (paths : List (List Position)) : Nat :=
  paths.foldl (fun acc p => max acc p.length) 0

/-!
Claim predicates modelled from the spec (used only to compare claimed with
implemented behaviour) and concrete instances used by counterexamples and
witnesses.
-/

/-- Modelled from the spec: the claimed goal-cell exemption of the conflict
detector — for a step at which every agent stands on its own goal cell, no
conflict entry may be reported for that step.  The implemented
`findCollisions` receives no goal information at all. -/
def goalExemptCollisionClaim (table : List (List Position))
    (goals : List Position) : Prop :=
  ∀ tstep : Nat, tstep < table.length →
    (∀ i : Nat, i < (table.getD tstep []).length →
      (table.getD tstep []).getD i default = goals.getD i default) →
    ∀ i : Nat, (tstep, i) ∉ findCollisions table

/-- Modelled from the spec: the claimed occupancy avoidance of the
cooperative strategy — in the returned plan, an agent planned later in the
final pass never occupies a cell at a time step at which an agent planned
earlier in that pass (hence with its path already committed to the temporal
occupancy) occupies the same cell. -/
def coopClaimedOccupancyAvoidance (s : MUState)
    (oracle : Nat → List Unit → List Unit) : Prop :=
  ∀ i j : Nat, i < j →
    j < (findPathsCooperative s oracle).1.units.length →
    ((findPathsCooperative s oracle).1.units.getD i default).pathFound = true →
    ((findPathsCooperative s oracle).1.units.getD j default).pathFound = true →
    ∀ t : Nat,
      t < ((findPathsCooperative s oracle).1.units.getD i default).path.length →
      t < ((findPathsCooperative s oracle).1.units.getD j default).path.length →
      ((findPathsCooperative s oracle).1.units.getD i default).path.getD t default ≠
        ((findPathsCooperative s oracle).1.units.getD j default).path.getD t default

/-- One-cell all-ground map (1×1, plus the marker bookkeeping a loaded map
carries). -/
def tinyMap : BattleMap :=
  { grid := [[-1]], width := 1, height := 1, startPos := ⟨0, 0⟩,
    targetPos := ⟨0, 0⟩, allStartPositions := [⟨0, 0⟩],
    allTargetPositions := [⟨0, 0⟩] }

/-- Three-cell corridor map (3×1): start marker, ground, target marker. -/
def corridorMap : BattleMap :=
  { grid := [[0, -1, 8]], width := 3, height := 1, startPos := ⟨0, 0⟩,
    targetPos := ⟨2, 0⟩, allStartPositions := [⟨0, 0⟩],
    allTargetPositions := [⟨2, 0⟩] }

/-- Two units crossing the corridor in opposite directions. -/
def coopDemoState : MUState :=
  { battleMap := corridorMap, moveDirections := defaultMoveOrder,
    units := [{ id := 1, startPos := ⟨0, 0⟩, targetPos := ⟨2, 0⟩ },
              { id := 2, startPos := ⟨2, 0⟩, targetPos := ⟨0, 0⟩ }],
    unitPriorities := fun _ => 0, occupied := emptyOcc }

/-- Identity shuffle oracle (stands for one possible behaviour of
`std::shuffle`; the first pass never consults it). -/
def idOracle : Nat → List Unit → List Unit := fun _ l => l

/-- Single unit already standing on its target, on the one-cell map. -/
def coopSingleState : MUState :=
  { battleMap := tinyMap, moveDirections := defaultMoveOrder,
    units := [{ id := 1, startPos := ⟨0, 0⟩, targetPos := ⟨0, 0⟩ }],
    unitPriorities := fun _ => 0, occupied := emptyOcc }

/-- Seventeen-cell corridor map (17×1). -/
def corridor17Map : BattleMap :=
  { grid := [[0, -1, -1, -1, -1, -1, -1, -1, -1, -1, -1, -1, -1, -1, -1, -1, 8]],
    width := 17, height := 1, startPos := ⟨0, 0⟩, targetPos := ⟨16, 0⟩,
    allStartPositions := [⟨0, 0⟩], allTargetPositions := [⟨16, 0⟩] }

/-- Seventeen units, ids 0–16, each already standing on its target cell
`(id, 0)`; all priorities equal (0). -/
def units17 : List Unit :=
  (List.range 17).map fun i =>
    { id := (i : Int), startPos := ⟨(i : Int), 0⟩, targetPos := ⟨(i : Int), 0⟩ }

/-- Pathfinder state with the seventeen equal-priority units. -/
def prioState17 : MUState :=
  { battleMap := corridor17Map, moveDirections := defaultMoveOrder,
    units := units17, unitPriorities := fun _ => 0, occupied := emptyOcc }

/-- Two registered demo units with distinct ids. -/
def demoUnits : List Unit :=
  [{ id := 1, startPos := ⟨0, 0⟩, targetPos := ⟨1, 0⟩ },
   { id := 2, startPos := ⟨2, 0⟩, targetPos := ⟨0, 0⟩ }]

/-- Three units for the step-table demo: a 3-step found path, a 1-step found
path, and a not-found unit. -/
def stepDemoUnits : List Unit :=
  [{ id := 1, startPos := ⟨0, 0⟩, targetPos := ⟨2, 0⟩,
     path := [⟨0, 0⟩, ⟨1, 0⟩, ⟨2, 0⟩], pathFound := true },
   { id := 2, startPos := ⟨0, 0⟩, targetPos := ⟨0, 0⟩,
     path := [⟨0, 0⟩], pathFound := true },
   { id := 3, startPos := ⟨9, 9⟩, targetPos := ⟨9, 9⟩, path := [],
     pathFound := false }]

/-!
Theorems.
-/

/-- Reservations are never removed by further reservations. -/
theorem updateOccupiedPositions_mono (m : BattleMap) :
    ∀ (path : List Position) (occ : Occ) (t0 t : Int) (q : Position),
      occ t q = true → updateOccupiedPositions m occ path t0 t q = true := by
  intro path
  induction path with
  | nil => intro occ t0 t q h; simpa [updateOccupiedPositions] using h
  | cons p rest ih =>
      intro occ t0 t q h
      simp only [updateOccupiedPositions]
      apply ih
      by_cases hv : m.isValidPosition p.x p.y
      · simp [hv, Occ.insertAt, h]
      · simp [hv, h]

/-- C6 (amended): after `updateOccupiedPositions(path, t0)`, every in-bounds
cell `path[i]` is recorded as occupied at time `t0 + i` (out-of-bounds cells
are skipped by the bounds guard), and `canWaitAtPosition(path[i], t0 + i)` —
the implementation's is-free query — returns false for every index `i`,
in-bounds or not (out-of-bounds cells already fail its validity check). -/
theorem C6_reserve_records_and_blocks (m : BattleMap) :
    ∀ (path : List Position) (occ : Occ) (t0 : Int) (i : Nat),
      i < path.length →
      (m.isValidPosition (path.getD i default).x (path.getD i default).y = true →
        updateOccupiedPositions m occ path t0 (t0 + (i : Int))
          (path.getD i default) = true) ∧
      canWaitAtPosition m (updateOccupiedPositions m occ path t0)
        (path.getD i default) (t0 + (i : Int)) = false := by
  intro path
  induction path with
  | nil => intro occ t0 i hi; simp at hi
  | cons p rest ih =>
      intro occ t0 i hi
      cases i with
      | zero =>
          simp only [List.getD_cons_zero, Nat.cast_zero, add_zero]
          constructor
          · intro hv
            simp only [updateOccupiedPositions, hv, if_pos]
            apply updateOccupiedPositions_mono
            simp [Occ.insertAt]
          · by_cases hv : m.isValidPosition p.x p.y
            · by_cases hr : m.isReachable p.x p.y
              · have hocc : updateOccupiedPositions m occ (p :: rest) t0
                    t0 p = true := by
                  simp only [updateOccupiedPositions, hv, if_pos]
                  apply updateOccupiedPositions_mono
                  simp [Occ.insertAt]
                simp [canWaitAtPosition, hv, hr, hocc]
              · simp [canWaitAtPosition, hv, hr]
            · simp [canWaitAtPosition, hv]
      | succ k =>
          have hk : k < rest.length := by simpa using hi
          have h2 := ih (if m.isValidPosition p.x p.y then
            occ.insertAt t0 p else occ) (t0 + 1) k hk
          have harith : t0 + ((k + 1 : Nat) : Int) = (t0 + 1) + (k : Int) := by
            push_cast; ring
          constructor
          · intro hv
            simp only [List.getD_cons_succ] at hv ⊢
            rw [harith]
            simp only [updateOccupiedPositions]
            exact h2.1 hv
          · simp only [List.getD_cons_succ]
            rw [harith]
            simp only [updateOccupiedPositions]
            exact h2.2

/-- Witness for `C6_reserve_records_and_blocks` at a concrete input: on the
1×1 map, reserving the one-cell path `[(0,0)]` at time 0 records the cell at
time 0 and makes waiting there at time 0 impossible. -/
theorem C6_reserve_records_and_blocks_witness :
    updateOccupiedPositions tinyMap emptyOcc [⟨0, 0⟩] 0 0 ⟨0, 0⟩ = true ∧
    canWaitAtPosition tinyMap
      (updateOccupiedPositions tinyMap emptyOcc [⟨0, 0⟩] 0) ⟨0, 0⟩ 0 = false := by
  have h := C6_reserve_records_and_blocks tinyMap [⟨0, 0⟩] emptyOcc 0 0
    (by decide)
  exact ⟨h.1 (by decide), h.2⟩

/-- C6 (counterexample): the claim asserts that *every* `path[i]` is recorded
as occupied at `t0 + i`; the implementation skips cells that fail the bounds
check, so on the 1×1 map the out-of-bounds cell `(5,5)` of the path
`[(5,5)]` is not recorded at time 0 (its membership query stays false right
after the reserve call). -/
theorem C6_counterexample :
    updateOccupiedPositions tinyMap emptyOcc [⟨5, 5⟩] 0 0 ⟨5, 5⟩ = false := by
  decide

/-- C1 (amended): `findCollisions` reports an entry `(t, i)` precisely when
some later agent `j > i` shares agent `i`'s cell at step `t`; goals are not
consulted (the function receives none), so co-located arrivals on shared
goal cells are reported as conflicts too. -/
theorem C1_findCollisions_characterization
    (table : List (List Position)) (t i : Nat) :
    (t, i) ∈ findCollisions table ↔
      t < table.length ∧ ∃ j : Nat, i < j ∧ j < (table.getD t []).length ∧
        (table.getD t []).getD i default = (table.getD t []).getD j default := by
  constructor
  · intro hmem
    simp only [findCollisions, List.mem_flatMap, List.mem_range,
      List.mem_filterMap, List.mem_filter, decide_eq_true_eq] at hmem
    obtain ⟨a, ha, b, hb, j, ⟨hj, hbj⟩, hopt⟩ := hmem
    split at hopt
    · rename_i hc
      injection hopt with hpair
      obtain ⟨rfl, rfl⟩ := Prod.mk.inj hpair
      exact ⟨ha, j, hbj, hj, by simpa using hc⟩
    · cases hopt
  · rintro ⟨ht, j, hij, hj, hcond⟩
    simp only [findCollisions, List.mem_flatMap, List.mem_range,
      List.mem_filterMap, List.mem_filter, decide_eq_true_eq]
    refine ⟨t, ht, i, by omega, j, ⟨hj, hij⟩, ?_⟩
    rw [if_pos (by simpa using hcond)]

/-- C1 (counterexample): two agents share cell `(0,0)` at step 0 and both
have `(0,0)` as their own goal; the claim demands zero conflicts for that
step, but `findCollisions` (which never sees the goals) reports the entry
`(0, 0)`. -/
theorem C1_counterexample :
    ¬ goalExemptCollisionClaim [[⟨0, 0⟩, ⟨0, 0⟩]] [⟨0, 0⟩, ⟨0, 0⟩] := by
  intro h
  exact h 0 (by decide) (by decide) 0 (by decide)

/-- C8 (confirmed): when a unit's start and target cells are valid and
reachable and coincide, the sequential loop marks it found with the
single-cell path `[start]` and reserves that cell at time 0; the temporal A*
does not appear in the outcome. -/
theorem C8_start_equals_target (m : BattleMap) (dirs : List (Int × Int))
    (occ : Occ) (u : Unit)
    (hvs : m.isValidPosition u.startPos.x u.startPos.y = true)
    (hvt : m.isValidPosition u.targetPos.x u.targetPos.y = true)
    (hrs : m.isReachable u.startPos.x u.startPos.y = true)
    (hrt : m.isReachable u.targetPos.x u.targetPos.y = true)
    (heq : u.startPos = u.targetPos) :
    sequentialProcessUnit m dirs occ u =
      ({ u with path := [u.startPos], pathFound := true },
       Occ.insertAt occ 0 u.startPos) := by
  simp only [sequentialProcessUnit, hvs, hvt, hrs, hrt, heq]
  simp [updateOccupiedPositions, heq ▸ hvs]

/-- Witness for `C8_start_equals_target`: the single unit of
`coopSingleState` sits on its target on the 1×1 map. -/
theorem C8_start_equals_target_witness :
    sequentialProcessUnit tinyMap defaultMoveOrder emptyOcc
      { id := 1, startPos := ⟨0, 0⟩, targetPos := ⟨0, 0⟩ } =
      ({ id := 1, startPos := ⟨0, 0⟩, targetPos := ⟨0, 0⟩,
         path := [⟨0, 0⟩], pathFound := true },
       Occ.insertAt emptyOcc 0 ⟨0, 0⟩) :=
  C8_start_equals_target tinyMap defaultMoveOrder emptyOcc _
    (by decide) (by decide) (by decide) (by decide) (by decide)

/-- Updating the first matching unit never changes the id sequence. -/
theorem updateFirstUnit_map_id (uid : Int) (s t : Position) :
    ∀ units : List Unit,
      (updateFirstUnit units uid s t).map (fun u => u.id) =
        units.map fun u => u.id := by
  intro units
  induction units with
  | nil => rfl
  | cons u rest ih =>
      by_cases h : (u.id == uid) = true
      · simp [updateFirstUnit, h]
      · simp only [updateFirstUnit]
        rw [if_neg h]
        simp [ih]

/-- Mapping a guarded update over units none of which match is the
identity. -/
theorem map_update_not_mem (uid : Int) (s t : Position) :
    ∀ units : List Unit, (∀ v ∈ units, (v.id == uid) = false) →
      (units.map fun u => if u.id == uid then
        { u with startPos := s, targetPos := t, path := [],
                 pathFound := false } else u) = units := by
  intro units
  induction units with
  | nil => intro _; rfl
  | cons u rest ih =>
      intro h
      have hu := h u (by simp)
      simp only [List.map_cons, hu]
      rw [if_neg (by simp [hu])]
      rw [ih fun v hv => h v (by simp [hv])]

/-- With unique ids, updating the first match is updating every match. -/
theorem updateFirstUnit_eq_mapIf (uid : Int) (s t : Position) :
    ∀ units : List Unit, ((units.map fun u => u.id).Nodup) →
      updateFirstUnit units uid s t =
        units.map fun u => if u.id == uid then
          { u with startPos := s, targetPos := t, path := [],
                   pathFound := false } else u := by
  intro units
  induction units with
  | nil => intro _; rfl
  | cons u rest ih =>
      intro hnd
      have hnd' : ((rest.map fun u => u.id).Nodup) := by
        simpa using hnd.of_cons
      by_cases h : (u.id == uid) = true
      · have huid : u.id = uid := by simpa using h
        have hnotin : u.id ∉ rest.map fun v => v.id := by
          have h2 := hnd
          simp only [List.map_cons, List.nodup_cons] at h2
          exact h2.1
        have hrest : ∀ v ∈ rest, (v.id == uid) = false := by
          intro v hv
          have hne : v.id ≠ uid := by
            intro hcontra
            exact hnotin (List.mem_map.mpr ⟨v, hv, by rw [hcontra, huid]⟩)
          simpa using hne
        simp only [updateFirstUnit, List.map_cons]
        rw [if_pos h, if_pos h, map_update_not_mem uid s t rest hrest]
      · simp only [updateFirstUnit, List.map_cons]
        rw [if_neg h, if_neg h, ih hnd']

/-- C9 (confirmed): id uniqueness of the unit registry.  Adding a unit whose
id already exists rewrites that unit's start/target and resets its path and
found flag without appending; adding a fresh id appends one unit; and
`addUnit`, `removeUnit` and `clearUnits` all preserve id uniqueness
(`loadMapWithUnits` and `autoSetupUnitsFromMap` only compose `clearUnits`
with `addUnit` calls). -/
theorem C9_unit_id_uniqueness (units : List Unit) (prios : Int → Int)
    (uid : Int) (s t : Position)
    (hnd : ((units.map fun u => u.id).Nodup)) :
    (((addUnit units prios uid s t).1.map fun u => u.id).Nodup) ∧
    ((units.any fun u => u.id == uid) = true →
      (addUnit units prios uid s t).1 =
        units.map fun u => if u.id == uid then
          { u with startPos := s, targetPos := t, path := [],
                   pathFound := false } else u) ∧
    ((units.any fun u => u.id == uid) = false →
      (addUnit units prios uid s t).1 =
        units ++ [{ id := uid, startPos := s, targetPos := t, path := [],
                    pathFound := false }]) ∧
    (((removeUnit units prios uid).1.map fun u => u.id).Nodup) ∧
    ((clearUnits.1.map fun u => u.id).Nodup) := by
  refine ⟨?_, ?_, ?_, ?_, ?_⟩
  · by_cases h : (units.any fun u => u.id == uid) = true
    · simp only [addUnit, h, if_pos]
      rw [updateFirstUnit_map_id]
      exact hnd
    · simp only [addUnit, h]
      rw [if_neg (by simpa using h)]
      have huid : uid ∉ units.map fun u => u.id := by
        intro hc
        obtain ⟨v, hv, hveq⟩ := List.mem_map.mp hc
        have : (units.any fun u => u.id == uid) = true :=
          List.any_eq_true.mpr ⟨v, hv, by simp [hveq]⟩
        exact absurd this (by simpa using h)
      simp only [List.map_append, List.map_cons, List.map_nil]
      exact List.Nodup.append hnd (by simp) (by
        intro a ha hb
        simp only [List.mem_singleton] at hb
        exact huid (hb ▸ ha))
  · intro h
    simp only [addUnit, h, if_pos]
    exact updateFirstUnit_eq_mapIf uid s t units hnd
  · intro h
    simp only [addUnit, h]
    rw [if_neg (by simp [h])]
  · have : ((units.filter fun u => !(u.id == uid)).map fun u => u.id).Sublist
        (units.map fun u => u.id) :=
      List.Sublist.map _ (List.filter_sublist units)
    exact List.Nodup.sublist this hnd
  · simp [clearUnits]

/-- Witness for `C9_unit_id_uniqueness` at a concrete registry: the
`demoUnits` ids are unique, re-adding id 1 rewrites in place, and adding the
fresh id 3 appends. -/
theorem C9_unit_id_uniqueness_witness :
    (((addUnit demoUnits (fun _ => 0) 1 ⟨2, 0⟩ ⟨2, 0⟩).1.map
        fun u => u.id).Nodup) ∧
    (addUnit demoUnits (fun _ => 0) 1 ⟨2, 0⟩ ⟨2, 0⟩).1 =
      demoUnits.map fun u => if u.id == 1 then
        { u with startPos := ⟨2, 0⟩, targetPos := ⟨2, 0⟩, path := [],
                 pathFound := false } else u := by
  have h := C9_unit_id_uniqueness demoUnits (fun _ => 0) 1 ⟨2, 0⟩ ⟨2, 0⟩
    (by decide)
  exact ⟨h.1, h.2.1 (by decide)⟩

/-- Every cell produced by the occupancy-checked neighbour generation comes
from one of the configured offsets and is valid, reachable, and unreserved at
the next time step. -/
theorem mem_getNeighborsWithOccupiedCheck_sound (m : BattleMap)
    (dirs : List (Int × Int)) (pos : Position) (t : Int) (occ : Occ)
    (p : Position) (hp : p ∈ getNeighborsWithOccupiedCheck m dirs pos t occ) :
    ∃ d ∈ dirs, p = ⟨pos.x + d.1, pos.y + d.2⟩ ∧
      m.isValidPosition p.x p.y = true ∧ m.isReachable p.x p.y = true ∧
      occ (t + 1) p = false := by
  simp only [getNeighborsWithOccupiedCheck, List.mem_filterMap] at hp
  obtain ⟨d, hd, hopt⟩ := hp
  refine ⟨d, hd, ?_⟩
  split at hopt
  · cases hopt
  · split at hopt
    · cases hopt
    · split at hopt
      · cases hopt
      · rename_i h1 h2 h3
        injection hopt with hpe
        subst hpe
        refine ⟨rfl, ?_, ?_, ?_⟩
        · simpa using h1
        · simpa using h2
        · simpa using h3

/-- Characterisation of the wait-feasibility check. -/
theorem canWaitAtPosition_eq_true (m : BattleMap) (occ : Occ)
    (pos : Position) (ts : Int) :
    canWaitAtPosition m occ pos ts = true ↔
      (m.isValidPosition pos.x pos.y = true ∧
       m.isReachable pos.x pos.y = true ∧ occ ts pos = false) := by
  unfold canWaitAtPosition
  by_cases hv : m.isValidPosition pos.x pos.y <;>
    by_cases hr : m.isReachable pos.x pos.y <;> simp [hv, hr]

/-- C4 (confirmed): every successor generated by the temporal A* from a state
`(c, t)` is either a move to an orthogonally adjacent, in-bounds, traversable
cell that is free of reservations at `t + 1`, or a wait at `c` itself with
`c` valid, traversable, and free of reservations at `t + 1`; and the node
built for any successor advances time by exactly one step at cost 1. -/
theorem C4_temporal_successor_soundness (m : BattleMap)
    (dirs : List (Int × Int)) (occ : Occ) (c : Position) (t : Int)
    (hdirs : ∀ d ∈ dirs,
      d = ((1 : Int), (0 : Int)) ∨ d = (0, 1) ∨ d = (-1, 0) ∨ d = (0, -1)) :
    (∀ p ∈ temporalSuccessors m dirs occ c t,
      ((p.x - c.x).natAbs + (p.y - c.y).natAbs = 1 ∧
        m.isValidPosition p.x p.y = true ∧ m.isReachable p.x p.y = true ∧
        occ (t + 1) p = false) ∨
      (p = c ∧ m.isValidPosition c.x c.y = true ∧
        m.isReachable c.x c.y = true ∧ occ (t + 1) c = false)) ∧
    (∀ (cur : TNode) (tgt : Position) (curId : Nat) (p : Position),
      (mkSuccNode cur tgt curId p).time = cur.time + 1 ∧
      (mkSuccNode cur tgt curId p).gCost = cur.gCost + 1) := by
  constructor
  · intro p hp
    simp only [temporalSuccessors, List.mem_append] at hp
    rcases hp with hmv | hwt
    · left
      obtain ⟨d, hd, hpe, h1, h2, h3⟩ :=
        mem_getNeighborsWithOccupiedCheck_sound m dirs c t occ p hmv
      refine ⟨?_, h1, h2, h3⟩
      rcases hdirs d hd with rfl | rfl | rfl | rfl <;> subst hpe <;> simp <;> omega
    · right
      have hsplit : canWaitAtPosition m occ c (t + 1) = true ∧ p = c := by
        by_cases h : canWaitAtPosition m occ c (t + 1)
        · refine ⟨h, ?_⟩
          simpa [h] using hwt
        · simp [h] at hwt
      obtain ⟨hcw, hpc⟩ := hsplit
      subst hpc
      obtain ⟨hv, hr, ho⟩ := (canWaitAtPosition_eq_true m occ p (t + 1)).mp hcw
      exact ⟨rfl, hv, hr, ho⟩
  · intro cur tgt curId p
    exact ⟨rfl, rfl⟩

/-- Witness for `C4_temporal_successor_soundness` at a concrete expansion: on
the corridor map with empty occupancy, `(1,0)` is generated from `((0,0), 0)`
and satisfies the move disjunct. -/
theorem C4_temporal_successor_soundness_witness :
    (((⟨1, 0⟩ : Position).x - (⟨0, 0⟩ : Position).x).natAbs +
        ((⟨1, 0⟩ : Position).y - (⟨0, 0⟩ : Position).y).natAbs = 1 ∧
      corridorMap.isValidPosition (1 : Int) (0 : Int) = true ∧
      corridorMap.isReachable (1 : Int) (0 : Int) = true ∧
      emptyOcc ((0 : Int) + 1) ⟨1, 0⟩ = false) ∨
    ((⟨1, 0⟩ : Position) = ⟨0, 0⟩ ∧
      corridorMap.isValidPosition (0 : Int) (0 : Int) = true ∧
      corridorMap.isReachable (0 : Int) (0 : Int) = true ∧
      emptyOcc ((0 : Int) + 1) ⟨0, 0⟩ = false) :=
  (C4_temporal_successor_soundness corridorMap defaultMoveOrder emptyOcc
    ⟨0, 0⟩ 0 (by decide)).1 ⟨1, 0⟩ (by decide)

/-- The reconstructed path always ends at the node it was reconstructed
from. -/
theorem reconstructPathFromNode_getLast (store : List TNode) (fuel : Nat)
    (i : Nat) :
    (reconstructPathFromNode store (fuel + 1) (some i)).getLast? =
      some (store.getD i default).pos := by
  simp [reconstructPathFromNode, List.getLast?_concat]

/-- The temporal search loop yields either the empty path or a path ending at
the target, for every fuel budget and state. -/
theorem temporalAStarLoop_empty_or_target (m : BattleMap)
    (dirs : List (Int × Int)) (occ : Occ) (tgt : Position) :
    ∀ (fuel : Nat) (st : TSearchState),
      temporalAStarLoop m dirs occ tgt fuel st = [] ∨
      (temporalAStarLoop m dirs occ tgt fuel st).getLast? = some tgt := by
  intro fuel
  induction fuel with
  | zero => intro st; left; rfl
  | succ f ih =>
      intro st
      simp only [temporalAStarLoop]
      split
      · left; rfl
      · split
        · rename_i hne hcur
          right
          rw [reconstructPathFromNode_getLast]
          simpa using hcur
        · exact ih _

/-- C5 (confirmed): the temporal A* search is iteration-capped at
`width × height × 100` (that product is, by construction, the fuel of
`temporalAStarLoop` in `findPathAStarWithOccupiedCheck`); whenever the search
does not pop the goal — frontier exhausted, cap reached, or a failed
precondition — it returns the empty path, never an error: the result is
either `[]` or a path ending at the target. -/
theorem C5_iteration_cap_negative_result (m : BattleMap)
    (dirs : List (Int × Int)) (occ : Occ) (s tgt : Position) :
    (findPathAStarWithOccupiedCheck m dirs occ s tgt = [] ∨
      (findPathAStarWithOccupiedCheck m dirs occ s tgt).getLast? = some tgt) ∧
    (∀ st : TSearchState, temporalAStarLoop m dirs occ tgt 0 st = []) ∧
    (∀ (fuel : Nat) (st : TSearchState), st.heap.isEmpty = true →
      temporalAStarLoop m dirs occ tgt fuel st = []) := by
  refine ⟨?_, fun st => rfl, ?_⟩
  · unfold findPathAStarWithOccupiedCheck
    split
    · left; rfl
    · split
      · left; rfl
      · split
        · left; rfl
        · exact temporalAStarLoop_empty_or_target m dirs occ tgt _ _
  · intro fuel st hst
    cases fuel with
    | zero => rfl
    | succ f => simp [temporalAStarLoop, hst]

/-- Witness for `C5_iteration_cap_negative_result` at a concrete state: with
an empty frontier the loop reports the empty path under any remaining fuel
budget. -/
theorem C5_iteration_cap_negative_result_witness :
    temporalAStarLoop tinyMap defaultMoveOrder emptyOcc ⟨0, 0⟩ 5
      ⟨[], [], [], []⟩ = [] :=
  (C5_iteration_cap_negative_result tinyMap defaultMoveOrder emptyOcc
    ⟨0, 0⟩ ⟨0, 0⟩).2.2 5 ⟨[], [], [], []⟩ (by decide)

/-- Folding `max` over path lengths dominates the accumulator and every
element length. -/
theorem maxPathLength_le_aux :
    ∀ (paths : List (List Position)) (acc : Nat),
      acc ≤ paths.foldl (fun a p => max a p.length) acc ∧
      ∀ p ∈ paths, p.length ≤ paths.foldl (fun a p => max a p.length) acc := by
  intro paths
  induction paths with
  | nil => intro acc; exact ⟨le_refl _, by simp⟩
  | cons q rest ih =>
      intro acc
      simp only [List.foldl_cons]
      constructor
      · exact le_trans (le_max_left _ _) (ih (max acc q.length)).1
      · intro p hp
        rcases List.mem_cons.mp hp with rfl | hp'
        · exact le_trans (le_max_right _ _) (ih (max acc p.length)).1
        · exact (ih _).2 p hp'

/-- Every collected path is at most the computed maximum length. -/
theorem length_le_maxPathLength (paths : List (List Position))
    (p : List Position) (hp : p ∈ paths) : p.length ≤ maxPathLength paths :=
  (maxPathLength_le_aux paths 0).2 p hp

/-- Membership in the found-path collection comes from a found unit. -/
theorem mem_foundPaths (units : List Unit) (p : List Position)
    (hp : p ∈ foundPaths units) :
    ∃ u ∈ units, u.pathFound = true ∧ u.path = p := by
  simp only [foundPaths, List.mem_map, List.mem_filter] at hp
  obtain ⟨u, ⟨hu, hf⟩, rfl⟩ := hp
  exact ⟨u, hu, by simpa using hf, rfl⟩

/-- The found flag is set for some unit exactly when the found-path
collection is non-empty. -/
theorem any_found_iff_foundPaths_ne_nil (units : List Unit) :
    (units.any fun u => u.pathFound) = true ↔ foundPaths units ≠ [] := by
  simp only [foundPaths, List.any_eq_true, Ne, List.map_eq_nil_iff,
    List.filter_eq_nil_iff]
  constructor
  · rintro ⟨u, hu, hf⟩ hall
    exact hall u hu (by simpa using hf)
  · intro hnot
    by_contra hc
    push_neg at hc
    exact hnot fun u hu => by
      have := hc u hu
      simpa using this

/-- Restatement of `generateStepByStepPositions` through the named
collection helpers (definitionally equal). -/
theorem generateStepByStep_eq (units : List Unit) :
    generateStepByStepPositions units =
      (if (foundPaths units).isEmpty then []
       else
        let extended := (foundPaths units).map fun p =>
          if p.isEmpty then p
          else p ++ List.replicate (maxPathLength (foundPaths units) - p.length)
            (p.getLastD default)
        if extended.isEmpty || (extended.getD 0 []).isEmpty then []
        else
          (List.range (extended.getD 0 []).length).map fun t =>
            extended.filterMap fun p =>
              if t < p.length then some (p.getD t default) else none) := rfl

/-- A filter-mapped transposition row over uniformly long paths is a plain
map. -/
theorem filterMap_row_eq_map (t : Nat) :
    ∀ l : List (List Position), (∀ p ∈ l, t < p.length) →
      (l.filterMap fun p =>
        if t < p.length then some (p.getD t default) else none) =
        l.map fun p => p.getD t default := by
  intro l
  induction l with
  | nil => intro _; rfl
  | cons q rest ih =>
      intro hl
      have hq : t < q.length := hl q (by simp)
      simp only [List.filterMap_cons, List.map_cons]
      rw [if_pos hq]
      rw [ih fun p hp => hl p (by simp [hp])]

/-- Entry `t` of a path extended to length `L` by repeating its last cell:
the original entry below the original length, the last cell beyond it. -/
theorem extended_getD (p : List Position) (L t : Nat) (hp : p ≠ [])
    (hle : p.length ≤ L) (ht : t < L) :
    (p ++ List.replicate (L - p.length) (p.getLastD default)).getD t default =
      if t < p.length then p.getD t default else p.getLastD default := by
  by_cases htp : t < p.length
  · rw [if_pos htp]
    exact List.getD_append _ _ _ _ htp
  · rw [if_neg htp]
    have h1 : p.length ≤ t := le_of_not_lt htp
    rw [List.getD_eq_getElem?_getD, List.getElem?_append_right h1,
      List.getElem?_replicate]
    rw [if_pos (by omega)]
    rfl

/-- Entry `t` of a list built by mapping a function over `List.range n`. -/
theorem getD_map_range {β : Type} (f : Nat → β) (n t : Nat) (ht : t < n)
    (d : β) : ((List.range n).map f).getD t d = f t := by
  rw [List.getD_eq_getElem?_getD, List.getElem?_map]
  simp [List.getElem?_range, ht]

/-- Core step-table lemma: with every found path non-empty and at least one
found unit, the table has exactly `maxPathLength` rows and row `t` lists, in
unit order, each found unit's cell at time `t` (its own cell while the path
lasts, its final cell afterwards). -/
theorem generateStepByStep_spec (units : List Unit)
    (h : ∀ u ∈ units, u.pathFound = true → u.path ≠ [])
    (hne : foundPaths units ≠ []) :
    (generateStepByStepPositions units).length =
      maxPathLength (foundPaths units) ∧
    ∀ t : Nat, t < maxPathLength (foundPaths units) →
      (generateStepByStepPositions units).getD t [] =
        (foundPaths units).map fun p =>
          if t < p.length then p.getD t default else p.getLastD default := by
  have hall : ∀ p ∈ foundPaths units, p ≠ [] := by
    intro p hp
    obtain ⟨u, hu, hf, hpath⟩ := mem_foundPaths units p hp
    exact hpath ▸ h u hu hf
  have hlen : ∀ p ∈ foundPaths units,
      p.length ≤ maxPathLength (foundPaths units) :=
    fun p hp => length_le_maxPathLength _ p hp
  have hmapped : ((foundPaths units).map fun p =>
      if p.isEmpty then p
      else p ++ List.replicate (maxPathLength (foundPaths units) - p.length)
        (p.getLastD default)) = (foundPaths units).map fun p =>
      p ++ List.replicate (maxPathLength (foundPaths units) - p.length)
        (p.getLastD default) :=
    List.map_congr_left fun q hq => by rw [if_neg (by simpa using hall q hq)]
  have hextlen : ∀ q ∈ (foundPaths units).map fun p =>
      p ++ List.replicate (maxPathLength (foundPaths units) - p.length)
        (p.getLastD default),
      q.length = maxPathLength (foundPaths units) := by
    intro q hq
    obtain ⟨p, hp, rfl⟩ := List.mem_map.mp hq
    have := hlen p hp
    simp only [List.length_append, List.length_replicate]
    omega
  obtain ⟨p0, rest, hfp0⟩ := List.exists_cons_of_ne_nil hne
  have hp0mem : p0 ∈ foundPaths units := by
    rw [hfp0]; exact List.mem_cons_self _ _
  have hp0len : 1 ≤ p0.length := by
    have hne0 := hall p0 hp0mem
    cases p0 with
    | nil => cases hne0 rfl
    | cons a l => simp
  have hL1 : 1 ≤ maxPathLength (foundPaths units) :=
    le_trans hp0len (hlen p0 hp0mem)
  have hhead : (((foundPaths units).map fun p =>
      p ++ List.replicate (maxPathLength (foundPaths units) - p.length)
        (p.getLastD default)).getD 0 []).length =
      maxPathLength (foundPaths units) := by
    apply hextlen
    rw [hfp0]
    simp only [List.map_cons, List.getD_cons_zero]
    exact List.mem_cons_self _ _
  have hgen : generateStepByStepPositions units =
      (List.range (maxPathLength (foundPaths units))).map fun t =>
        ((foundPaths units).map fun p =>
          p ++ List.replicate (maxPathLength (foundPaths units) - p.length)
            (p.getLastD default)).filterMap fun p =>
          if t < p.length then some (p.getD t default) else none := by
    rw [generateStepByStep_eq]
    rw [if_neg (by simpa using hne), hmapped]
    rw [if_neg ?hcond, hhead]
    case hcond =>
      simp only [Bool.or_eq_true, not_or]
      constructor
      · simp only [List.isEmpty_eq_true, List.map_eq_nil_iff]
        exact hne
      · simp only [List.isEmpty_eq_true]
        intro hc
        rw [hc] at hhead
        simp only [List.length_nil] at hhead
        omega
  constructor
  · rw [hgen]
    simp
  · intro t ht
    rw [hgen, getD_map_range _ _ _ ht]
    rw [filterMap_row_eq_map t _ (fun q hq => by rw [hextlen q hq]; exact ht)]
    rw [List.map_map]
    refine List.map_congr_left fun p hp => ?_
    exact extended_getD p _ t (hall p hp) (hlen p hp) ht

/-- C7 (confirmed): the step-by-step table is built from the found units
only; when at least one unit is found (and found paths are non-empty, as
every strategy guarantees), the table has `maxPathLength` rows, row `t`
lists each found path's cell at `t` — the path entry while it lasts, the
repeated last cell beyond — and the finalised result's `totalSteps` equals
that common length. -/
theorem C7_step_table_alignment (units : List Unit) (r : PathfindingResult)
    (h : ∀ u ∈ units, u.pathFound = true → u.path ≠ [])
    (hr : ∀ u ∈ r.units, u.pathFound = true → u.path ≠ []) :
    (foundPaths units ≠ [] →
      (generateStepByStepPositions units).length =
        maxPathLength (foundPaths units) ∧
      ∀ t : Nat, t < maxPathLength (foundPaths units) →
        (generateStepByStepPositions units).getD t [] =
          (foundPaths units).map fun p =>
            if t < p.length then p.getD t default else p.getLastD default) ∧
    ((r.units.any fun u => u.pathFound) = true →
      (finalizeResult r).stepByStepPositions =
        generateStepByStepPositions r.units ∧
      (finalizeResult r).totalSteps = maxPathLength (foundPaths r.units)) := by
  constructor
  · intro hne
    exact generateStepByStep_spec units h hne
  · intro hany
    have hne := (any_found_iff_foundPaths_ne_nil r.units).mp hany
    constructor
    · simp [finalizeResult, hany]
    · simp only [finalizeResult, hany, if_pos]
      exact (generateStepByStep_spec r.units hr hne).1

/-- Witness for `C7_step_table_alignment` on the three-unit demo (one
three-step path, one one-step path, one not-found unit). -/
theorem C7_step_table_alignment_witness :
    (generateStepByStepPositions stepDemoUnits).length =
      maxPathLength (foundPaths stepDemoUnits) ∧
    (finalizeResult { units := stepDemoUnits }).totalSteps =
      maxPathLength (foundPaths stepDemoUnits) := by
  have h := C7_step_table_alignment stepDemoUnits { units := stepDemoUnits }
    (by decide) (by decide)
  exact ⟨(h.1 (by decide)).1, (h.2 (by decide)).2⟩

/-- The sequential per-unit step never changes a unit's id. -/
theorem sequentialProcessUnit_id (m : BattleMap) (dirs : List (Int × Int))
    (occ : Occ) (u : Unit) :
    (sequentialProcessUnit m dirs occ u).1.id = u.id := by
  unfold sequentialProcessUnit
  split_ifs <;> try rfl
  by_cases hp : (findPathAStarWithOccupiedCheck m dirs occ
    u.startPos u.targetPos).isEmpty <;> simp [hp]

/-- The sequential unit loop preserves the id sequence (appended after the
accumulator). -/
theorem seqFold_map_id (m : BattleMap) (dirs : List (Int × Int)) :
    ∀ (units : List Unit) (acc : List Unit × Occ),
      ((units.foldl
        (fun (acc : List Unit × Occ) u =>
          let r := sequentialProcessUnit m dirs acc.2 u
          (acc.1 ++ [r.1], r.2)) acc).1.map fun u => u.id) =
        (acc.1.map fun u => u.id) ++ (units.map fun u => u.id) := by
  intro units
  induction units with
  | nil => intro acc; simp
  | cons u rest ih =>
      intro acc
      simp only [List.foldl_cons, List.map_cons]
      rw [ih]
      simp [sequentialProcessUnit_id]

/-- The sequential strategy returns units in input order with unchanged
ids. -/
theorem findPathsSequentialCore_map_id (m : BattleMap)
    (dirs : List (Int × Int)) (units : List Unit) :
    ((findPathsSequentialCore m dirs units).1.map fun u => u.id) =
      units.map fun u => u.id := by
  unfold findPathsSequentialCore
  rw [seqFold_map_id]
  simp

/-- Elements of a bounded linear insertion. -/
theorem mem_linInsertBack {α : Type} (lt : α → α → Bool) :
    ∀ (racc : List α) (x y : α), y ∈ linInsertBack lt racc x →
      y = x ∨ y ∈ racc := by
  intro racc
  induction racc with
  | nil => intro x y hy; simpa [linInsertBack] using hy
  | cons a rest ih =>
      intro x y hy
      rw [linInsertBack] at hy
      by_cases h : lt x a = true
      · rw [if_pos h] at hy
        rcases List.mem_cons.mp hy with rfl | hy'
        · exact Or.inr (by simp)
        · rcases ih x y hy' with rfl | hyr
          · exact Or.inl rfl
          · exact Or.inr (by simp [hyr])
      · rw [if_neg h] at hy
        rcases List.mem_cons.mp hy with rfl | hy'
        · exact Or.inl rfl
        · exact Or.inr hy'

/-- Bounded linear insertion preserves reversed sortedness, given an
asymmetric, negatively transitive comparator. -/
theorem linInsertBack_pairwise {α : Type} (lt : α → α → Bool)
    (hasym : ∀ a b, lt a b = true → lt b a = false)
    (hneg : ∀ a b c, lt a b = false → lt b c = false → lt a c = false) :
    ∀ (racc : List α) (x : α),
      List.Pairwise (fun a b => lt a b = false) racc →
      List.Pairwise (fun a b => lt a b = false) (linInsertBack lt racc x) := by
  intro racc
  induction racc with
  | nil => intro x _; simp [linInsertBack]
  | cons a rest ih =>
      intro x hp
      have hpa := List.pairwise_cons.mp hp
      rw [linInsertBack]
      by_cases h : lt x a = true
      · rw [if_pos h]
        refine List.pairwise_cons.mpr ⟨?_, ih x hpa.2⟩
        intro y hy
        rcases mem_linInsertBack lt rest x y hy with heq | hyr
        · rw [heq]; exact hasym x a h
        · exact hpa.1 y hyr
      · rw [if_neg h]
        have hx : lt x a = false := by
          revert h; cases lt x a <;> simp
        refine List.pairwise_cons.mpr ⟨?_, hp⟩
        intro y hy
        rcases List.mem_cons.mp hy with rfl | hyr
        · exact hx
        · exact hneg x a y hx (hpa.1 y hyr)

/-- The insertion fold keeps the reversed accumulator sorted. -/
theorem foldl_linInsertBack_pairwise {α : Type} (lt : α → α → Bool)
    (hasym : ∀ a b, lt a b = true → lt b a = false)
    (hneg : ∀ a b c, lt a b = false → lt b c = false → lt a c = false) :
    ∀ (l racc : List α),
      List.Pairwise (fun a b => lt a b = false) racc →
      List.Pairwise (fun a b => lt a b = false)
        (l.foldl (linInsertBack lt) racc) := by
  intro l
  induction l with
  | nil => intro racc hr; simpa using hr
  | cons x rest ih =>
      intro racc hr
      simp only [List.foldl_cons]
      exact ih _ (linInsertBack_pairwise lt hasym hneg racc x hr)

/-- The final insertion pass sorts any input: consecutive elements never
compare strictly upward. -/
theorem finalInsertionSort_pairwise {α : Type} (lt : α → α → Bool)
    (hasym : ∀ a b, lt a b = true → lt b a = false)
    (hneg : ∀ a b c, lt a b = false → lt b c = false → lt a c = false)
    (l : List α) :
    List.Pairwise (fun a b => lt b a = false) (finalInsertionSort lt l) := by
  unfold finalInsertionSort
  rw [List.pairwise_reverse]
  exact foldl_linInsertBack_pairwise lt hasym hneg l [] (by simp)

/-- The `std::sort` model always produces a list sorted by the comparator
(the quicksort phase feeds the final insertion pass, which sorts
unconditionally). -/
theorem stdSortList_pairwise {α : Type} [Inhabited α] (lt : α → α → Bool)
    (hasym : ∀ a b, lt a b = true → lt b a = false)
    (hneg : ∀ a b c, lt a b = false → lt b c = false → lt a c = false)
    (l : List α) :
    List.Pairwise (fun a b => lt b a = false) (stdSortList lt l) := by
  unfold stdSortList
  split
  · rename_i h
    have : l = [] := by simpa using h
    subst this
    simp
  · exact finalInsertionSort_pairwise lt hasym hneg _

/-- The unit list sorted by the priority comparator is in descending
priority order. -/
theorem stdSortUnits_sorted (prios : Int → Int) (units : List Unit) :
    List.Pairwise (fun a b : Unit => prios b.id ≤ prios a.id)
      (stdSortUnits prios units) := by
  have h := stdSortList_pairwise (unitPriorityGt prios)
    (fun a b hab => by
      simp only [unitPriorityGt, decide_eq_true_eq] at hab
      simp only [unitPriorityGt, decide_eq_false_iff_not]
      omega)
    (fun a b c hab hbc => by
      simp only [unitPriorityGt, decide_eq_false_iff_not] at hab hbc
      simp only [unitPriorityGt, decide_eq_false_iff_not]
      omega)
    units
  refine h.imp fun hab => ?_
  simp only [unitPriorityGt, decide_eq_false_iff_not] at hab
  omega

/-- C10 (confirmed): `findPathsPriorityBased` restores the pathfinder's
stored unit list (same units, same order), while the returned result's units
carry the ids in `std::sort`'s descending-priority order. -/
theorem C10_priorityBased_frame (s : MUState) :
    (findPathsPriorityBased s).2.units = s.units ∧
    ((findPathsPriorityBased s).1.units.map fun u => u.id) =
      ((stdSortUnits s.unitPriorities s.units).map fun u => u.id) ∧
    List.Pairwise
      (fun a b : Unit => s.unitPriorities b.id ≤ s.unitPriorities a.id)
      (stdSortUnits s.unitPriorities s.units) := by
  refine ⟨rfl, ?_, stdSortUnits_sorted _ _⟩
  simp only [findPathsPriorityBased, findPathsSequentialR]
  exact findPathsSequentialCore_map_id _ _ _

/-- C3 (amended): the priority-based strategy runs the sequential strategy
on the unit list sorted by descending priority with `std::sort` — whose
equal-priority tie order is the libstdc++ introsort order, not the original
relative order; the sorted list is in (non-strictly) descending priority
order. -/
theorem C3_priorityBased_unstable_sort (s : MUState) :
    (findPathsPriorityBased s).1 =
      (findPathsSequentialR
        { s with units := stdSortUnits s.unitPriorities s.units }).1 ∧
    List.Pairwise
      (fun a b : Unit => s.unitPriorities b.id ≤ s.unitPriorities a.id)
      (stdSortUnits s.unitPriorities s.units) :=
  ⟨rfl, stdSortUnits_sorted _ _⟩

/-- C3 (counterexample): on seventeen equal-priority units the claim demands
the stable (original) order, i.e. the result of running Sequential on the
stable-sorted list; `std::sort`'s introsort instead permutes the ties
(median-of-three pivoting plus partition swaps), so the two runs return
units in different orders. -/
theorem C3_counterexample :
    ((findPathsPriorityBased prioState17).1.units.map fun u => u.id) ≠
      ((findPathsSequentialR { prioState17 with
          units := specStableSortByPriorityDesc prioState17.unitPriorities
            prioState17.units }).1.units.map fun u => u.id) := by
  decide

/-- A unit emitted by the cooperative per-unit step either was already in
the accumulator or, when found, carries exactly the plain A* path between
its own endpoints on its temporary map. -/
theorem coopStep_mem (m : BattleMap) (dirs : List (Int × Int))
    (acc : List Unit × Occ × Bool) (u u' : Unit)
    (hu : u' ∈ (coopStep m dirs acc u).1) :
    u' ∈ acc.1 ∨ (u'.pathFound = true →
      u'.path = findPathAStarPlain (coopTempMap m u'.startPos u'.targetPos)
        dirs u'.startPos u'.targetPos) := by
  simp only [coopStep] at hu
  split at hu
  · rcases List.mem_append.mp hu with hin | hone
    · exact Or.inl hin
    · refine Or.inr fun _ => ?_
      have he : u' = { u with
          path := findPathAStarPlain (coopTempMap m u.startPos u.targetPos)
            dirs (coopTempMap m u.startPos u.targetPos).startPos
            (coopTempMap m u.startPos u.targetPos).targetPos,
          pathFound := true } := by simpa using hone
      rw [he]
      simp [coopTempMap]
  · rcases List.mem_append.mp hu with hin | hone
    · exact Or.inl hin
    · refine Or.inr fun hfound => ?_
      have he : u' = { u with pathFound := false } := by simpa using hone
      rw [he] at hfound
      cases hfound

/-- Folding the cooperative step over any unit list preserves the
plain-A*-path property of the accumulated units and establishes it for the
newly processed ones. -/
theorem coopFold_mem (m : BattleMap) (dirs : List (Int × Int)) :
    ∀ (units : List Unit) (acc : List Unit × Occ × Bool),
      (∀ u' ∈ acc.1, u'.pathFound = true →
        u'.path = findPathAStarPlain (coopTempMap m u'.startPos u'.targetPos)
          dirs u'.startPos u'.targetPos) →
      ∀ u' ∈ (units.foldl (coopStep m dirs) acc).1, u'.pathFound = true →
        u'.path = findPathAStarPlain (coopTempMap m u'.startPos u'.targetPos)
          dirs u'.startPos u'.targetPos := by
  intro units
  induction units with
  | nil => intro acc hacc u' hu; exact hacc u' (by simpa using hu)
  | cons u rest ih =>
      intro acc hacc u' hu
      simp only [List.foldl_cons] at hu
      refine ih (coopStep m dirs acc u) ?_ u' hu
      intro v hv
      rcases coopStep_mem m dirs acc u v hv with hvin | hvp
      · exact hacc v hvin
      · exact hvp

/-- Every found unit of a cooperative pass carries its plain A* path. -/
theorem coopPass_mem (m : BattleMap) (dirs : List (Int × Int))
    (units : List Unit) (occ0 : Occ) :
    ∀ u' ∈ (coopPass m dirs units occ0).1, u'.pathFound = true →
      u'.path = findPathAStarPlain (coopTempMap m u'.startPos u'.targetPos)
        dirs u'.startPos u'.targetPos :=
  coopFold_mem m dirs units ([], occ0, true) (by simp)

/-- The cooperative attempt loop preserves the plain-A*-path property. -/
theorem coopLoop_mem_of (m : BattleMap) (dirs : List (Int × Int))
    (oracle : Nat → List Unit → List Unit) :
    ∀ (n attempt : Nat) (units : List Unit) (occ : Occ),
      (∀ u ∈ units, u.pathFound = true →
        u.path = findPathAStarPlain (coopTempMap m u.startPos u.targetPos)
          dirs u.startPos u.targetPos) →
      ∀ u' ∈ (coopLoop m dirs oracle n attempt units occ).1,
        u'.pathFound = true →
        u'.path = findPathAStarPlain (coopTempMap m u'.startPos u'.targetPos)
          dirs u'.startPos u'.targetPos := by
  intro n
  induction n with
  | zero =>
      intro attempt units occ h u' hu
      exact h u' (by simpa [coopLoop] using hu)
  | succ k ih =>
      intro attempt units occ h u' hu
      simp only [coopLoop] at hu
      split at hu <;> split at hu <;>
        first
        | exact coopPass_mem _ _ _ _ u' hu
        | exact ih _ _ _ (coopPass_mem _ _ _ _) u' hu

/-- After at least one pass the plain-A*-path property holds outright. -/
theorem coopLoop_mem_succ (m : BattleMap) (dirs : List (Int × Int))
    (oracle : Nat → List Unit → List Unit) (k attempt : Nat)
    (units : List Unit) (occ : Occ) :
    ∀ u' ∈ (coopLoop m dirs oracle (k + 1) attempt units occ).1,
      u'.pathFound = true →
      u'.path = findPathAStarPlain (coopTempMap m u'.startPos u'.targetPos)
        dirs u'.startPos u'.targetPos := by
  intro u' hu
  simp only [coopLoop] at hu
  split at hu <;> split at hu <;>
    first
    | exact coopPass_mem _ _ _ _ u' hu
    | exact coopLoop_mem_of m dirs oracle k _ _ _ (coopPass_mem _ _ _ _) u' hu

/-- C2 (amended): the cooperative strategy performs up to 3 passes, but each
agent in a pass is planned with the *plain* A* search between its own
endpoints — the temporal occupancy committed by agents planned earlier is
not consulted by the search (it is merely recorded): every found unit of the
returned plan carries exactly its plain A* path.  Retries after the first
pass clear the occupancy and reorder the units through the shuffle source,
and the loop stops early on the first fully successful pass: when the first
pass already succeeds for every agent, the outcome does not depend on the
shuffle source at all. -/
theorem C2_cooperative_plain_search (s : MUState)
    (oracle : Nat → List Unit → List Unit) :
    (∀ u ∈ (findPathsCooperative s oracle).1.units, u.pathFound = true →
      u.path = findPathAStarPlain
        (coopTempMap s.battleMap u.startPos u.targetPos)
        s.moveDirections u.startPos u.targetPos) ∧
    ((coopPass s.battleMap s.moveDirections s.units emptyOcc).2.2 = true →
      ∀ oracle' : Nat → List Unit → List Unit,
        findPathsCooperative s oracle = findPathsCooperative s oracle') := by
  constructor
  · intro u hu
    have hu' : u ∈ (coopLoop s.battleMap s.moveDirections oracle 3 0 s.units
        emptyOcc).1 := hu
    exact coopLoop_mem_succ s.battleMap s.moveDirections oracle 2 0 s.units
      emptyOcc u hu'
  · intro hpass oracle'
    have hl : ∀ orc : Nat → List Unit → List Unit,
        coopLoop s.battleMap s.moveDirections orc 3 0 s.units emptyOcc =
          ((coopPass s.battleMap s.moveDirections s.units emptyOcc).1,
           (coopPass s.battleMap s.moveDirections s.units emptyOcc).2.1,
           true) := by
      intro orc
      simp only [coopLoop]
      simp [hpass]
    unfold findPathsCooperative
    rw [hl oracle, hl oracle']

/-- Witness for `C2_cooperative_plain_search`: the single found unit of
`coopSingleState` carries its plain A* path, and — the first pass being
fully successful — the result is independent of the shuffle source. -/
theorem C2_cooperative_plain_search_witness :
    (((findPathsCooperative coopSingleState idOracle).1.units.getD 0
        default).path =
      findPathAStarPlain
        (coopTempMap coopSingleState.battleMap
          ((findPathsCooperative coopSingleState idOracle).1.units.getD 0
            default).startPos
          ((findPathsCooperative coopSingleState idOracle).1.units.getD 0
            default).targetPos)
        coopSingleState.moveDirections
        ((findPathsCooperative coopSingleState idOracle).1.units.getD 0
          default).startPos
        ((findPathsCooperative coopSingleState idOracle).1.units.getD 0
          default).targetPos) ∧
    findPathsCooperative coopSingleState idOracle =
      findPathsCooperative coopSingleState fun _ l => l.reverse := by
  have h := C2_cooperative_plain_search coopSingleState idOracle
  exact ⟨h.1 _ (by decide) (by decide), h.2 (by decide) _⟩

/-- C2 (counterexample): on the corridor with two opposing units the first
cooperative pass succeeds for both (so the run is deterministic), yet the
second-planned unit's path crosses the cell `(1,0)` at time 1 — a
reservation committed by the first-planned unit — so the claimed
occupancy-avoiding search behaviour is violated. -/
theorem C2_counterexample :
    ¬ coopClaimedOccupancyAvoidance coopDemoState idOracle := by
  intro h
  exact h 0 1 (by decide) (by decide) (by decide) (by decide) 1 (by decide)
    (by decide) (by decide)

end RTS
